import Mathlib

set_option maxHeartbeats 1000000

namespace RepoToXML

/-- Tree node produced by `walkDir` (src/index.js): tagged variant with
`directory` (name, relative path, ordered children) and `file`
(name, relative path, UTF-8 content). -/
inductive Node where
  | directory (name : String) (path : String) (children : List Node) : Node
  | file (name : String) (path : String) (content : String) : Node

/-- Model of the filesystem seen by the walker.  An entry list records the
order `fs.readdirSync` returns names.  `dirFail` is a directory whose
listing throws; a `none` stat in an entry is a `fs.statSync` failure;
`isBinary = none` is an `isBinaryFileSync` throw; `content = none` is a
`fs.readFileSync` throw. -/
inductive FS where
  | dirOk (entries : List (String × Option FS)) : FS
  | dirFail : FS
  | file (size : Nat) (isBinary : Option Bool) (content : Option String) : FS

/-- Model of Node's `path.join(a, b)` on two segments: empty segments are
dropped, otherwise the segments are joined with `/`. -/
def joinPath (a b : String) : String :=
  if a = "" then b else if b = "" then a else a ++ "/" ++ b

/-- `needle` occurs at the start of `hay` (character lists). -/
def startsWithCL : List Char → List Char → Bool
  | _, [] => true
  | [], _ :: _ => false
  | a :: as, b :: bs => a = b && startsWithCL as bs

/-- Substring containment on character lists. -/
def includesCL (hay needle : List Char) : Bool :=
  startsWithCL hay needle ||
    match hay with
    | [] => false
    | _ :: t => includesCL t needle

/-- JavaScript `hay.includes(needle)`: substring containment, case-sensitive. -/
def jsIncludes (hay needle : String) : Bool :=
  includesCL hay.data needle.data

/-- `excludes.some(ex => relPath.includes(ex))` from src/index.js line 128. -/
def excludedBy (excludes : List String) (relPath : String) : Bool :=
  excludes.any fun ex => jsIncludes relPath ex

/-- `DEFAULT_FILE_SIZE_LIMIT = 1024 * 1024` from src/index.js. -/
def DEFAULT_FILE_SIZE_LIMIT : Nat := 1024 * 1024

/-- The entry loop of `walkDir` (src/index.js lines 125-166).  `dirRel` is the
path of the listed directory relative to `process.cwd()`, so a child's
`relPath` is `joinPath dirRel name`.  Skipped entries (excluded, stat
failure, oversized, binary, binary-check failure, read failure) produce no
node; directory entries push a `directory` node whose children are the
recursive walk (an unreadable subdirectory yields `[]`, matching the
caught `readdirSync` failure that returns the untouched accumulator). -/
def walkEntries : List (String × Option FS) → String → List String → Nat → List Node → List Node
  | [], _, _, _, files => files
  | (name, stat) :: rest, dirRel, excludes, fileSizeLimit, files =>
    let relPath := joinPath dirRel name
    if excludedBy excludes relPath then
      walkEntries rest dirRel excludes fileSizeLimit files
    else
      match stat with
      | none => walkEntries rest dirRel excludes fileSizeLimit files
      | some (FS.dirOk l) =>
        walkEntries rest dirRel excludes fileSizeLimit
          (files ++ [Node.directory name relPath (walkEntries l relPath excludes fileSizeLimit [])])
      | some FS.dirFail =>
        walkEntries rest dirRel excludes fileSizeLimit
          (files ++ [Node.directory name relPath []])
      | some (FS.file size isBinary content) =>
        if fileSizeLimit < size then
          walkEntries rest dirRel excludes fileSizeLimit files
        else
          match isBinary with
          | none => walkEntries rest dirRel excludes fileSizeLimit files
          | some true => walkEntries rest dirRel excludes fileSizeLimit files
          | some false =>
            match content with
            | none => walkEntries rest dirRel excludes fileSizeLimit files
            | some c =>
              walkEntries rest dirRel excludes fileSizeLimit
                (files ++ [Node.file name relPath c])

/-- `walkDir(dir, excludes, fileSizeLimit, files = [])` from src/index.js:
a failed `readdirSync` (or a non-directory argument) returns the
accumulator unchanged; otherwise the entries are processed in listing
order. -/
def walkDir (dir : FS) (dirRel : String) (excludes : List String)
    (fileSizeLimit : Nat) (files : List Node) : List Node :=
  match dir with
  | FS.dirOk entries => walkEntries entries dirRel excludes fileSizeLimit files
  | _ => files

/-- The push loop of `buildTxtOutput` (src/index.js lines 184-193):
directories only extend the joined parent path; each file pushes a header
line and its content followed by a newline. -/
def txtPush : List Node → List String → String → List String
  | [], output, _ => output
  | node :: rest, output, parentPath =>
    match node with
    | Node.directory name _ children =>
      txtPush rest (txtPush children output (joinPath parentPath name)) parentPath
    | Node.file name _ content =>
      txtPush rest
        (output ++ ["--- FILE: " ++ joinPath parentPath name ++ " ---\n", content ++ "\n"])
        parentPath

/-- `buildTxtOutput(files, output = [], parentPath = '')` from src/index.js:
the pushed pieces joined with the empty separator. -/
def buildTxtOutput (files : List Node) (output : List String) (parentPath : String) : String :=
  String.join (txtPush files output parentPath)

/-- The per-entry action of the walker's loop body, used to state that the
walk processes a listing in order: `none` when the entry is skipped
(excluded, stat failure, oversized, binary, or a per-entry error),
otherwise the single node the entry contributes, a directory entry
carrying its fully walked subtree. -/
def walkEntry (dirRel : String) (excludes : List String) (fileSizeLimit : Nat) :
    String × Option FS → Option Node
  | (name, stat) =>
    let relPath := joinPath dirRel name
    if excludedBy excludes relPath then none
    else
      match stat with
      | none => none
      | some (FS.dirOk l) =>
        some (Node.directory name relPath (walkDir (FS.dirOk l) relPath excludes fileSizeLimit []))
      | some FS.dirFail => some (Node.directory name relPath [])
      | some (FS.file size isBinary content) =>
        if fileSizeLimit < size then none
        else
          match isBinary with
          | none => none
          | some true => none
          | some false => content.map fun c => Node.file name relPath c

mutual

/-- No relative path stored anywhere in the node's subtree contains an
exclusion token as a substring. -/
def nodeClean (excludes : List String) : Node → Bool
  | Node.directory _ p cs => !excludedBy excludes p && nodesClean excludes cs
  | Node.file _ p _ => !excludedBy excludes p

/-- `nodeClean` over a forest. -/
def nodesClean (excludes : List String) : List Node → Bool
  | [] => true
  | n :: ns => nodeClean excludes n && nodesClean excludes ns

end

mutual

/-- Number of nodes in a tree. -/
def nodeCount : Node → Nat
  | Node.directory _ _ cs => 1 + nodesCount cs
  | Node.file _ _ _ => 1

/-- Number of nodes in a forest. -/
def nodesCount : List Node → Nat
  | [] => 0
  | n :: ns => nodeCount n + nodesCount ns

end

mutual

/-- Number of filesystem entries in the modelled tree. -/
def fsCount : FS → Nat
  | FS.dirOk es => entsCount es
  | FS.dirFail => 0
  | FS.file _ _ _ => 0

/-- Number of filesystem entries in a listing, including nested ones. -/
def entsCount : List (String × Option FS) → Nat
  | [] => 0
  | (_, none) :: rest => 1 + entsCount rest
  | (_, some fs) :: rest => 1 + fsCount fs + entsCount rest

end

theorem nodesClean_append (excludes : List String) (a b : List Node) :
    nodesClean excludes (a ++ b) = (nodesClean excludes a && nodesClean excludes b) := by
  induction a with
  | nil => simp [nodesClean]
  | cons n ns ih => simp [nodesClean, ih, Bool.and_assoc]

theorem walkEntries_clean (es : List (String × Option FS)) (dirRel : String)
    (excludes : List String) (fileSizeLimit : Nat) (files : List Node)
    (hf : nodesClean excludes files = true) :
    nodesClean excludes (walkEntries es dirRel excludes fileSizeLimit files) = true := by
  induction es, dirRel, excludes, fileSizeLimit, files using walkEntries.induct with
  | case1 => simpa [walkEntries] using hf
  | case2 name stat rest dirRel ex lim files relPath hex ih =>
    rw [walkEntries.eq_def]
    simpa [hex] using ih hf
  | case3 name rest dirRel ex lim files relPath hex ih =>
    simpa [walkEntries, hex] using ih hf
  | case4 name rest dirRel ex lim files relPath hex l ih1 ih1' ih =>
    have h1 : nodesClean ex (walkEntries l (joinPath dirRel name) ex lim []) = true :=
      ih1 (by simp [nodesClean])
    refine ?_
    simp only [walkEntries, hex, if_neg, Bool.not_eq_true]
    exact ih (by simp [nodesClean_append, hf, nodesClean, nodeClean, hex, h1])
  | case5 name rest dirRel ex lim files relPath hex ih =>
    simp only [walkEntries, hex, if_neg, Bool.not_eq_true]
    exact ih (by simp [nodesClean_append, hf, nodesClean, nodeClean, hex])
  | case6 name rest dirRel ex lim files relPath hex size isBin content hsize ih =>
    rw [walkEntries.eq_def]
    simpa [hex, hsize] using ih hf
  | case7 name rest dirRel ex lim files relPath hex size content hsize ih =>
    simpa [walkEntries, hex, hsize] using ih hf
  | case8 name rest dirRel ex lim files relPath hex size content hsize ih =>
    simpa [walkEntries, hex, hsize] using ih hf
  | case9 name rest dirRel ex lim files relPath hex size hsize ih =>
    simpa [walkEntries, hex, hsize] using ih hf
  | case10 name rest dirRel ex lim files relPath hex size hsize c ih =>
    simp only [walkEntries, hex, if_neg, Bool.not_eq_true, hsize]
    exact ih (by simp [nodesClean_append, hf, nodesClean, nodeClean, hex])

theorem walkEntries_filterMap (es : List (String × Option FS)) (dirRel : String)
    (excludes : List String) (fileSizeLimit : Nat) (files : List Node) :
    walkEntries es dirRel excludes fileSizeLimit files =
      files ++ es.filterMap (walkEntry dirRel excludes fileSizeLimit) := by
  induction es, dirRel, excludes, fileSizeLimit, files using walkEntries.induct with
  | case1 => simp [walkEntries]
  | case2 name stat rest dirRel ex lim files relPath hex ih =>
    rw [walkEntries.eq_def]
    simp [hex, walkEntry, ih, List.filterMap_cons]
  | case3 name rest dirRel ex lim files relPath hex ih =>
    rw [walkEntries.eq_def]
    simp [hex, walkEntry, ih, List.filterMap_cons]
  | case4 name rest dirRel ex lim files relPath hex l ih1 ih1' ih =>
    rw [walkEntries.eq_def]
    simp [hex, walkEntry, ih, List.filterMap_cons, walkDir]
  | case5 name rest dirRel ex lim files relPath hex ih =>
    rw [walkEntries.eq_def]
    simp [hex, walkEntry, ih, List.filterMap_cons]
  | case6 name rest dirRel ex lim files relPath hex size isBin content hsize ih =>
    rw [walkEntries.eq_def]
    simp [hex, hsize, walkEntry, ih, List.filterMap_cons]
  | case7 name rest dirRel ex lim files relPath hex size content hsize ih =>
    rw [walkEntries.eq_def]
    simp [hex, hsize, walkEntry, ih, List.filterMap_cons]
  | case8 name rest dirRel ex lim files relPath hex size content hsize ih =>
    rw [walkEntries.eq_def]
    simp [hex, hsize, walkEntry, ih, List.filterMap_cons]
  | case9 name rest dirRel ex lim files relPath hex size hsize ih =>
    rw [walkEntries.eq_def]
    simp [hex, hsize, walkEntry, ih, List.filterMap_cons]
  | case10 name rest dirRel ex lim files relPath hex size hsize c ih =>
    rw [walkEntries.eq_def]
    simp [hex, hsize, walkEntry, ih, List.filterMap_cons]

theorem nodesCount_append (a b : List Node) :
    nodesCount (a ++ b) = nodesCount a + nodesCount b := by
  induction a with
  | nil => simp [nodesCount]
  | cons n ns ih => simp [nodesCount, ih]; omega

theorem walkEntries_count (es : List (String × Option FS)) (dirRel : String)
    (excludes : List String) (fileSizeLimit : Nat) (files : List Node) :
    nodesCount (walkEntries es dirRel excludes fileSizeLimit files) ≤
      nodesCount files + entsCount es := by
  induction es, dirRel, excludes, fileSizeLimit, files using walkEntries.induct with
  | case1 => simp [walkEntries, entsCount]
  | case2 name stat rest dirRel ex lim files relPath hex ih =>
    rw [walkEntries.eq_def]
    simp only [hex, if_true, if_pos]
    refine le_trans ih ?_
    cases stat <;> simp [entsCount]
  | case3 name rest dirRel ex lim files relPath hex ih =>
    rw [walkEntries.eq_def]
    simp only [hex, Bool.false_eq_true, if_false]
    refine le_trans ih ?_
    simp [entsCount]
  | case4 name rest dirRel ex lim files relPath hex l ih1 ih1' ih =>
    rw [walkEntries.eq_def]
    simp only [hex, Bool.false_eq_true, if_false]
    refine le_trans ih ?_
    have h1 := ih1
    simp only [nodesCount, entsCount] at *
    simp [nodesCount_append, nodesCount, nodeCount, fsCount]
    omega
  | case5 name rest dirRel ex lim files relPath hex ih =>
    rw [walkEntries.eq_def]
    simp only [hex, Bool.false_eq_true, if_false]
    refine le_trans ih ?_
    simp [nodesCount_append, nodesCount, nodeCount, entsCount, fsCount]
    omega
  | case6 name rest dirRel ex lim files relPath hex size isBin content hsize ih =>
    rw [walkEntries.eq_def]
    simp only [hex, Bool.false_eq_true, if_false, hsize, if_true]
    refine le_trans ih ?_
    simp [entsCount, fsCount]
  | case7 name rest dirRel ex lim files relPath hex size content hsize ih =>
    rw [walkEntries.eq_def]
    simp only [hex, Bool.false_eq_true, if_false, hsize]
    refine le_trans ih ?_
    simp [entsCount, fsCount]
  | case8 name rest dirRel ex lim files relPath hex size content hsize ih =>
    rw [walkEntries.eq_def]
    simp only [hex, Bool.false_eq_true, if_false, hsize]
    refine le_trans ih ?_
    simp [entsCount, fsCount]
  | case9 name rest dirRel ex lim files relPath hex size hsize ih =>
    rw [walkEntries.eq_def]
    simp only [hex, Bool.false_eq_true, if_false, hsize]
    refine le_trans ih ?_
    simp [entsCount, fsCount]
  | case10 name rest dirRel ex lim files relPath hex size hsize c ih =>
    rw [walkEntries.eq_def]
    simp only [hex, Bool.false_eq_true, if_false, hsize]
    refine le_trans ih ?_
    simp [nodesCount_append, nodesCount, nodeCount, entsCount, fsCount]
    omega

theorem stringJoin_append (a b : List String) :
    String.join (a ++ b) = String.join a ++ String.join b := by
  apply String.ext
  simp [String.join_eq, String.data_append]

/-- C3 counterexample: for the tree whose only file is `src/a.txt` with
content `hello`, the delimited-text output is NOT the claimed string
`--- FILE: src/a.txt ---\nhello\n\n`: the code emits exactly one newline
after the content, not a blank line. -/
theorem claim3_counterexample :
    buildTxtOutput [Node.directory "src" "src" [Node.file "a.txt" "src/a.txt" "hello"]] [] ""
      ≠ "--- FILE: src/a.txt ---\nhello\n\n" := by
  simp only [buildTxtOutput, txtPush]
  decide

/-- C3 (amended): in the delimited-text output every `File` node produces
exactly one block: the header line `--- FILE: <path> ---` followed by the
raw file content and a single trailing newline; for the tree whose only
included file is `src/a.txt` with content `hello`, the whole output is
exactly `--- FILE: src/a.txt ---\nhello\n`. -/
theorem claim3_txt_file_block :
    buildTxtOutput [Node.directory "src" "src" [Node.file "a.txt" "src/a.txt" "hello"]] [] ""
      = "--- FILE: src/a.txt ---\nhello\n" ∧
    ∀ (name p content : String) (output : List String) (parentPath : String),
      buildTxtOutput [Node.file name p content] output parentPath =
        String.join output ++
          ("--- FILE: " ++ joinPath parentPath name ++ " ---\n") ++ (content ++ "\n") := by
  constructor
  · simp only [buildTxtOutput, txtPush]
    decide
  · intro name p content output parentPath
    apply String.ext
    simp [buildTxtOutput, txtPush, String.join_eq, String.data_append]

/-- C4: for every modelled directory tree and every set of exclusion tokens,
no node in the tree `walkDir` produces has a relative path containing any
exclusion token as a substring (plain case-sensitive substring matching,
as `relPath.includes(ex)` in src/index.js line 128). -/
theorem claim4_exclusion_invariant (dir : FS) (dirRel : String)
    (excludes : List String) (fileSizeLimit : Nat) :
    nodesClean excludes (walkDir dir dirRel excludes fileSizeLimit []) = true := by
  cases dir with
  | dirOk es => exact walkEntries_clean es dirRel excludes fileSizeLimit [] rfl
  | dirFail => rfl
  | file size isBin content => rfl

/-- C5: a regular file whose size strictly exceeds the configured
`fileSizeLimit` contributes no node: the walk continues with the next
entry as if the file were absent; and the default limit is
1,048,576 bytes. -/
theorem claim5_size_filter (name : String) (size : Nat) (isBinary : Option Bool)
    (content : Option String) (rest : List (String × Option FS)) (dirRel : String)
    (excludes : List String) (fileSizeLimit : Nat) (files : List Node)
    (hsize : fileSizeLimit < size) :
    walkEntries ((name, some (FS.file size isBinary content)) :: rest)
        dirRel excludes fileSizeLimit files =
      walkEntries rest dirRel excludes fileSizeLimit files ∧
    DEFAULT_FILE_SIZE_LIMIT = 1048576 := by
  refine ⟨?_, rfl⟩
  rw [walkEntries.eq_def]
  by_cases hex : excludedBy excludes (joinPath dirRel name) = true
  · simp [hex]
  · simp [hex, hsize]

/-- C5 witness: a 2 MB file against the default 1 MB limit is skipped. -/
theorem claim5_size_filter_witness :
    1048576 < 2097152 ∧
    (walkEntries [("big.bin", some (FS.file 2097152 none (some "x")))]
        "src" [] 1048576 [] = walkEntries [] "src" [] 1048576 []) :=
  ⟨by decide,
   (claim5_size_filter "big.bin" 2097152 none (some "x") [] "src" [] 1048576 []
      (by decide)).1⟩

/-- C6: a file the binary-detection collaborator reports as binary
(`isBinaryFileSync` returning true) contributes no node, for every size,
and the walk continues with the next entry. -/
theorem claim6_binary_filter (name : String) (size : Nat) (content : Option String)
    (rest : List (String × Option FS)) (dirRel : String) (excludes : List String)
    (fileSizeLimit : Nat) (files : List Node) :
    walkEntries ((name, some (FS.file size (some true) content)) :: rest)
        dirRel excludes fileSizeLimit files =
      walkEntries rest dirRel excludes fileSizeLimit files := by
  rw [walkEntries.eq_def]
  by_cases hex : excludedBy excludes (joinPath dirRel name) = true
  · simp [hex]
  · by_cases hsize : fileSizeLimit < size
    · simp [hex, hsize]
    · simp [hex, hsize]

/-- C7: the walk of a listing is the in-order `filterMap` of its entries:
nodes appear exactly in filesystem listing order (no sorting), each
directory entry carries its complete recursively walked subtree before
the next sibling entry is processed (depth-first pre-order). -/
theorem claim7_traversal_order (es : List (String × Option FS)) (dirRel : String)
    (excludes : List String) (fileSizeLimit : Nat) (files : List Node) :
    walkDir (FS.dirOk es) dirRel excludes fileSizeLimit files =
      files ++ es.filterMap (walkEntry dirRel excludes fileSizeLimit) ∧
    ∀ (name : String) (l : List (String × Option FS)),
      walkEntry dirRel excludes fileSizeLimit (name, some (FS.dirOk l)) =
        if excludedBy excludes (joinPath dirRel name) then none
        else some (Node.directory name (joinPath dirRel name)
          (walkDir (FS.dirOk l) (joinPath dirRel name) excludes fileSizeLimit [])) := by
  refine ⟨walkEntries_filterMap es dirRel excludes fileSizeLimit files, ?_⟩
  intro name l
  by_cases hex : excludedBy excludes (joinPath dirRel name) = true
  · simp [walkEntry, hex]
  · simp [walkEntry, hex]

/-- C8: every per-entry failure is absorbed locally and omits only that
entry: a directory whose listing fails yields the accumulator unchanged
(an empty node sequence for that directory), and a stat failure, a
binary-detection failure, or a read failure each skip exactly the one
entry, with the walk continuing on the remaining entries. -/
theorem claim8_error_handling :
    (∀ (dirRel : String) (excludes : List String) (fileSizeLimit : Nat) (files : List Node),
      walkDir FS.dirFail dirRel excludes fileSizeLimit files = files) ∧
    (∀ (name : String) (rest : List (String × Option FS)) (dirRel : String)
        (excludes : List String) (fileSizeLimit : Nat) (files : List Node),
      walkEntries ((name, none) :: rest) dirRel excludes fileSizeLimit files =
        walkEntries rest dirRel excludes fileSizeLimit files) ∧
    (∀ (name : String) (size : Nat) (content : Option String)
        (rest : List (String × Option FS)) (dirRel : String)
        (excludes : List String) (fileSizeLimit : Nat) (files : List Node),
      walkEntries ((name, some (FS.file size none content)) :: rest)
          dirRel excludes fileSizeLimit files =
        walkEntries rest dirRel excludes fileSizeLimit files) ∧
    (∀ (name : String) (size : Nat) (rest : List (String × Option FS)) (dirRel : String)
        (excludes : List String) (fileSizeLimit : Nat) (files : List Node),
      walkEntries ((name, some (FS.file size (some false) none)) :: rest)
          dirRel excludes fileSizeLimit files =
        walkEntries rest dirRel excludes fileSizeLimit files) := by
  refine ⟨fun _ _ _ _ => rfl, ?_, ?_, ?_⟩
  · intro name rest dirRel excludes lim files
    rw [walkEntries.eq_def]
    by_cases hex : excludedBy excludes (joinPath dirRel name) = true <;> simp [hex]
  · intro name size content rest dirRel excludes lim files
    rw [walkEntries.eq_def]
    by_cases hex : excludedBy excludes (joinPath dirRel name) = true
    · simp [hex]
    · by_cases hsize : lim < size <;> simp [hex, hsize]
  · intro name size rest dirRel excludes lim files
    rw [walkEntries.eq_def]
    by_cases hex : excludedBy excludes (joinPath dirRel name) = true
    · simp [hex]
    · by_cases hsize : lim < size <;> simp [hex, hsize]

/-- C9: the walker is a total function on the modelled (finite, hence
symlink-cycle-free) filesystem tree — its recursion descends only into
entries whose stat reports a directory — and the walk produces at most
one node per filesystem entry. -/
theorem claim9_termination_bound (dir : FS) (dirRel : String) (excludes : List String)
    (fileSizeLimit : Nat) (files : List Node) :
    nodesCount (walkDir dir dirRel excludes fileSizeLimit files) ≤
      nodesCount files + fsCount dir := by
  cases dir with
  | dirOk es => exact walkEntries_count es dirRel excludes fileSizeLimit files
  | dirFail => simp [walkDir, fsCount]
  | file size isBin content => simp [walkDir, fsCount]

/-- Decimal digits of `n` (adequate for `n < 100`; used for control
characters, whose code points are below 32). -/
def decDigits (n : Nat) : List Char :=
  if n < 10 then [Char.ofNat (48 + n)]
  else [Char.ofNat (48 + n / 10), Char.ofNat (48 + n % 10)]

/-- Modelled from the spec: the standard markup text-escaping that the
underlying library (xmlbuilder2, not part of src/) must apply to element
text so that special characters and control characters survive the
round-trip: `& < >` become entities, control characters other than
newline and tab become numeric character references, everything else is
emitted verbatim. -/
def escChar (c : Char) : List Char :=
  if c = '&' then "&amp;".data
  else if c = '<' then "&lt;".data
  else if c = '>' then "&gt;".data
  else if c.toNat < 32 ∧ c ≠ '\n' ∧ c ≠ '\t' then "&#".data ++ decDigits c.toNat ++ [';']
  else [c]

/-- Text-escaping applied character-wise. -/
def escText : List Char → List Char
  | [] => []
  | c :: rest => escChar c ++ escText rest

/-- Modelled from the spec: attribute-value escaping of the underlying
library; double quotes (the delimiter) and all control characters are
escaped in addition to `& < >`. -/
def escAttrChar (c : Char) : List Char :=
  if c = '&' then "&amp;".data
  else if c = '<' then "&lt;".data
  else if c = '>' then "&gt;".data
  else if c = '"' then "&quot;".data
  else if c.toNat < 32 then "&#".data ++ decDigits c.toNat ++ [';']
  else [c]

/-- Attribute-value escaping applied character-wise. -/
def escAttr : List Char → List Char
  | [] => []
  | c :: rest => escAttrChar c ++ escAttr rest

/-- The `name="…" path="…"` attribute pair every element carries
(src/index.js lines 173 and 176). -/
def attrChars (name p : String) : List Char :=
  " name=\"".data ++ escAttr name.data ++ ['"'] ++
    " path=\"".data ++ escAttr p.data ++ ['"']

/-- Two-space indentation at depth `d` (xmlbuilder2 `prettyPrint`). -/
def ind (d : Nat) : List Char := List.replicate (2 * d) ' '

mutual

/-- One serialized element, without its leading indentation: `buildNode`
from src/index.js lines 171-178, with the pretty-printed layout of
`root.end({ prettyPrint: true })` modelled from the spec (an element per
line, children indented two further spaces, a file's text body inline). -/
def nodeBody (d : Nat) : Node → List Char
  | Node.directory name p [] =>
    "<directory".data ++ attrChars name p ++ "/>\n".data
  | Node.directory name p (c :: cs) =>
    "<directory".data ++ attrChars name p ++ ">\n".data ++
      nodesChars (d + 1) (c :: cs) ++ ind d ++ "</directory>\n".data
  | Node.file name p content =>
    "<file".data ++ attrChars name p ++ ">".data ++ escText content.data ++ "</file>\n".data

/-- A serialized forest: each node indented at depth `d` on its own line. -/
def nodesChars (d : Nat) : List Node → List Char
  | [] => []
  | n :: ns => ind d ++ nodeBody d n ++ nodesChars d ns

end

/-- The whole document: XML declaration, `repository` root element,
serialized children (src/index.js lines 179-181). -/
def xmlDocChars (files : List Node) : List Char :=
  "<?xml version=\"1.0\" encoding=\"UTF-8\"?>\n".data ++
    (match files with
     | [] => "<repository/>".data
     | _ :: _ => "<repository>\n".data ++ nodesChars 1 files ++ "</repository>".data)

/-- `buildXmlTree(files)` from src/index.js lines 170-182. -/
def buildXmlTree (files : List Node) : String :=
  String.mk (xmlDocChars files)

/-- Skip inter-element whitespace (spaces and newlines), as any standard
XML parser does between child elements. -/
def skipWs : List Char → List Char
  | [] => []
  | c :: rest => if c = ' ' ∨ c = '\n' then skipWs rest else c :: rest

/-- Strip an exact literal from the front of the input, or fail. -/
def dropLit : List Char → List Char → Option (List Char)
  | [], s => some s
  | _ :: _, [] => none
  | l :: ls, c :: cs => if l = c then dropLit ls cs else none

/-- Read raw characters up to (and consuming) the stopper character. -/
def readUntil (stop : Char) : List Char → Option (List Char × List Char)
  | [] => none
  | c :: rest =>
    if c = stop then some ([], rest)
    else (readUntil stop rest).map fun pr => (c :: pr.1, pr.2)

/-- Decode a one-digit numeric character reference body. -/
def entDec (d : Char) : Char := Char.ofNat (d.toNat - 48)

/-- Decode a two-digit numeric character reference body. -/
def entDec2 (d e : Char) : Char := Char.ofNat (10 * (d.toNat - 48) + (e.toNat - 48))

/-- Undo the markup escaping: entity and numeric character references are
decoded, any other character is kept; a malformed reference fails. -/
def unesc : List Char → Option (List Char)
  | [] => some []
  | c :: rest =>
    if c = '&' then
      match rest with
      | 'a' :: 'm' :: 'p' :: ';' :: r => (unesc r).map fun t => '&' :: t
      | 'l' :: 't' :: ';' :: r => (unesc r).map fun t => '<' :: t
      | 'g' :: 't' :: ';' :: r => (unesc r).map fun t => '>' :: t
      | 'q' :: 'u' :: 'o' :: 't' :: ';' :: r => (unesc r).map fun t => '"' :: t
      | '#' :: d :: ';' :: r =>
        if d.isDigit then (unesc r).map fun t => entDec d :: t else none
      | '#' :: d :: e :: ';' :: r =>
        if d.isDigit ∧ e.isDigit then (unesc r).map fun t => entDec2 d e :: t else none
      | _ => none
    else (unesc rest).map fun t => c :: t

/-- Parse the `name="…" path="…"` attribute pair. -/
def parseAttrs (s : List Char) : Option (String × String × List Char) :=
  match dropLit " name=\"".data s with
  | none => none
  | some s1 =>
    match readUntil '"' s1 with
    | none => none
    | some (rawName, s2) =>
      match unesc rawName with
      | none => none
      | some nm =>
        match dropLit " path=\"".data s2 with
        | none => none
        | some s3 =>
          match readUntil '"' s3 with
          | none => none
          | some (rawPath, s4) =>
            match unesc rawPath with
            | none => none
            | some p => some (String.mk nm, String.mk p, s4)

mutual

/-- Recursive-descent parse of one serialized element (`directory` or
`file`), fuelled to make the recursion evidently terminating. -/
def parseNode : Nat → List Char → Option (Node × List Char)
  | 0, _ => none
  | fuel + 1, s0 =>
    match dropLit "<directory".data (skipWs s0) with
    | some s1 =>
      match parseAttrs s1 with
      | none => none
      | some (nm, p, s2) =>
        match dropLit "/>\n".data s2 with
        | some s3 => some (Node.directory nm p [], s3)
        | none =>
          match dropLit ">\n".data s2 with
          | none => none
          | some s3 =>
            match parseNodes fuel s3 with
            | none => none
            | some (cs, s4) =>
              match dropLit "</directory>\n".data s4 with
              | none => none
              | some s5 => some (Node.directory nm p cs, s5)
    | none =>
      match dropLit "<file".data (skipWs s0) with
      | none => none
      | some s1 =>
        match parseAttrs s1 with
        | none => none
        | some (nm, p, s2) =>
          match dropLit ">".data s2 with
          | none => none
          | some s3 =>
            match readUntil '<' s3 with
            | none => none
            | some (raw, s4) =>
              match unesc raw with
              | none => none
              | some content =>
                match dropLit "/file>\n".data s4 with
                | none => none
                | some s5 => some (Node.file nm p (String.mk content), s5)

/-- Parse a sequence of sibling elements, stopping in front of a closing
tag or at the end of input. -/
def parseNodes : Nat → List Char → Option (List Node × List Char)
  | 0, _ => none
  | fuel + 1, s0 =>
    let s := skipWs s0
    if s = [] then some ([], s)
    else if startsWithCL s ['<', '/'] then some ([], s)
    else
      match parseNode fuel s with
      | none => none
      | some (n, s1) =>
        match parseNodes fuel s1 with
        | none => none
        | some (ns, s2) => some (n :: ns, s2)

end

/-- Parse a whole serialized document back into the forest of nodes:
declaration, `repository` root (self-closing when empty), children,
closing tag, end of input. -/
def parseXmlDoc (doc : String) : Option (List Node) :=
  match dropLit "<?xml version=\"1.0\" encoding=\"UTF-8\"?>\n".data doc.data with
  | none => none
  | some s1 =>
    match dropLit "<repository/>".data s1 with
    | some s2 => if s2 = [] then some [] else none
    | none =>
      match dropLit "<repository>\n".data s1 with
      | none => none
      | some s2 =>
        match parseNodes s2.length s2 with
        | none => none
        | some (ns, s3) =>
          match dropLit "</repository>".data s3 with
          | none => none
          | some s4 => if s4 = [] then some ns else none

theorem stringMk_data (s : String) : String.mk s.data = s := by
  cases s
  rfl

theorem dropLit_append (l s : List Char) : dropLit l (l ++ s) = some s := by
  induction l with
  | nil => simp [dropLit]
  | cons c cs ih => simp [dropLit, ih]

theorem readUntil_append (stop : Char) (xs rest : List Char) (h : stop ∉ xs) :
    readUntil stop (xs ++ stop :: rest) = some (xs, rest) := by
  induction xs with
  | nil => simp [readUntil]
  | cons c cs ih =>
    have hc : ¬(c = stop) := fun he => h (he ▸ List.mem_cons_self c cs)
    have ht : stop ∉ cs := fun hm => h (List.mem_cons_of_mem _ hm)
    simp [readUntil, hc, ih ht]

theorem skipWs_replicate (k : Nat) (s : List Char) :
    skipWs (List.replicate k ' ' ++ s) = skipWs s := by
  induction k with
  | zero => simp
  | succ k ih => simp [List.replicate_succ, skipWs, ih]

theorem skipWs_ind (d : Nat) (s : List Char) : skipWs (ind d ++ s) = skipWs s := by
  simpa [ind] using skipWs_replicate (2 * d) s

theorem skipWs_newline (s : List Char) : skipWs ('\n' :: s) = skipWs s := by
  simp [skipWs]

theorem skipWs_lt (s : List Char) : skipWs ('<' :: s) = '<' :: s := by
  simp [skipWs]

theorem quot_not_mem_escAttrChar (c : Char) : '"' ∉ escAttrChar c := by
  by_cases h1 : c = '&'
  · subst h1; decide
  by_cases h2 : c = '<'
  · subst h2; decide
  by_cases h3 : c = '>'
  · subst h3; decide
  by_cases h4 : c = '"'
  · subst h4; decide
  by_cases h5 : c.toNat < 32
  · have he : escAttrChar c = "&#".data ++ decDigits c.toNat ++ [';'] := by
      simp [escAttrChar, h1, h2, h3, h4, h5]
    rw [he]
    generalize hg : c.toNat = n at h5
    interval_cases n <;> decide
  · have he : escAttrChar c = [c] := by simp [escAttrChar, h1, h2, h3, h4, h5]
    rw [he]
    simp
    exact fun hq => h4 hq.symm

theorem lt_not_mem_escChar (c : Char) : '<' ∉ escChar c := by
  by_cases h1 : c = '&'
  · subst h1; decide
  by_cases h2 : c = '<'
  · subst h2; decide
  by_cases h3 : c = '>'
  · subst h3; decide
  by_cases h5 : c.toNat < 32 ∧ c ≠ '\n' ∧ c ≠ '\t'
  · have he : escChar c = "&#".data ++ decDigits c.toNat ++ [';'] := by
      simp [escChar, h1, h2, h3, h5]
    rw [he]
    obtain ⟨h5a, -, -⟩ := h5
    generalize hg : c.toNat = n at h5a
    interval_cases n <;> decide
  · have he : escChar c = [c] := by simp [escChar, h1, h2, h3, h5]
    rw [he]
    simp
    exact fun hq => h2 hq.symm

theorem quot_not_mem_escAttr (s : List Char) : '"' ∉ escAttr s := by
  induction s with
  | nil => simp [escAttr]
  | cons c cs ih =>
    simp only [escAttr, List.mem_append]
    rintro (h | h)
    · exact quot_not_mem_escAttrChar c h
    · exact ih h

theorem lt_not_mem_escText (s : List Char) : '<' ∉ escText s := by
  induction s with
  | nil => simp [escText]
  | cons c cs ih =>
    simp only [escText, List.mem_append]
    rintro (h | h)
    · exact lt_not_mem_escChar c h
    · exact ih h

theorem unesc_cons_ne (c : Char) (rest : List Char) (h : c ≠ '&') :
    unesc (c :: rest) = (unesc rest).map fun t => c :: t := by
  rw [unesc.eq_def]
  simp [h]

theorem unesc_escAttrChar (c : Char) (rest : List Char) :
    unesc (escAttrChar c ++ rest) = (unesc rest).map fun t => c :: t := by
  by_cases h1 : c = '&'
  · subst h1; simp [escAttrChar, unesc]
  by_cases h2 : c = '<'
  · subst h2; simp [escAttrChar, unesc]
  by_cases h3 : c = '>'
  · subst h3; simp [escAttrChar, unesc]
  by_cases h4 : c = '"'
  · subst h4; simp [escAttrChar, unesc]
  by_cases h5 : c.toNat < 32
  · have hcn : c = Char.ofNat c.toNat := (Char.ofNat_toNat c).symm
    generalize hg : c.toNat = n at h5 hcn
    rw [hcn]
    interval_cases n <;> simp [escAttrChar, unesc, decDigits, entDec, entDec2]
  · have he : escAttrChar c = [c] := by simp [escAttrChar, h1, h2, h3, h4, h5]
    rw [he]
    exact unesc_cons_ne c rest h1

theorem unesc_escChar (c : Char) (rest : List Char) :
    unesc (escChar c ++ rest) = (unesc rest).map fun t => c :: t := by
  by_cases h1 : c = '&'
  · subst h1; simp [escChar, unesc]
  by_cases h2 : c = '<'
  · subst h2; simp [escChar, unesc]
  by_cases h3 : c = '>'
  · subst h3; simp [escChar, unesc]
  by_cases h5 : c.toNat < 32 ∧ c ≠ '\n' ∧ c ≠ '\t'
  · have hcn : c = Char.ofNat c.toNat := (Char.ofNat_toNat c).symm
    obtain ⟨h5a, h5b, h5c⟩ := h5
    generalize hg : c.toNat = n at h5a hcn
    subst hcn
    interval_cases n <;>
      simp_all [escChar, unesc, decDigits, entDec, entDec2]
  · have he : escChar c = [c] := by simp [escChar, h1, h2, h3, h5]
    rw [he]
    exact unesc_cons_ne c rest h1

theorem unesc_escAttr (s : List Char) : unesc (escAttr s) = some s := by
  induction s with
  | nil => simp [escAttr, unesc]
  | cons c cs ih => simp [escAttr, unesc_escAttrChar, ih]

theorem unesc_escText (s : List Char) : unesc (escText s) = some s := by
  induction s with
  | nil => simp [escText, unesc]
  | cons c cs ih => simp [escText, unesc_escChar, ih]

theorem parseAttrs_attrChars (name p : String) (rest : List Char) :
    parseAttrs (attrChars name p ++ rest) = some (name, p, rest) := by
  simp [parseAttrs, attrChars, dropLit]
  rw [readUntil_append _ _ _ (quot_not_mem_escAttr name.data)]
  simp [unesc_escAttr, dropLit]
  rw [readUntil_append _ _ _ (quot_not_mem_escAttr p.data)]
  simp [unesc_escAttr, stringMk_data]

mutual

/-- Fuel sufficient for `parseNode` on one serialized node. -/
def fneed : Node → Nat
  | Node.file _ _ _ => 1
  | Node.directory _ _ cs => 1 + gneed cs

/-- Fuel sufficient for `parseNodes` on a serialized forest. -/
def gneed : List Node → Nat
  | [] => 1
  | n :: ns => 1 + fneed n + gneed ns

end

theorem fneed_pos (n : Node) : 1 ≤ fneed n := by
  cases n <;> simp [fneed]

theorem gneed_pos (ns : List Node) : 1 ≤ gneed ns := by
  cases ns with
  | nil => simp [gneed]
  | cons n ns' =>
    simp only [gneed]
    omega

theorem skipWs_nodeBody (d : Nat) (n : Node) (X : List Char) :
    skipWs (nodeBody d n ++ X) = nodeBody d n ++ X := by
  cases n with
  | directory name p cs => cases cs <;> simp [nodeBody, skipWs]
  | file name p content => simp [nodeBody, skipWs]

theorem nodeBody_append_ne_nil (d : Nat) (n : Node) (X : List Char) :
    nodeBody d n ++ X ≠ [] := by
  cases n with
  | directory name p cs => cases cs <;> simp [nodeBody]
  | file name p content => simp [nodeBody]

theorem startsWithCL_nodeBody (d : Nat) (n : Node) (X : List Char) :
    startsWithCL (nodeBody d n ++ X) ['<', '/'] = false := by
  cases n with
  | directory name p cs => cases cs <;> simp [nodeBody, startsWithCL]
  | file name p content => simp [nodeBody, startsWithCL]

mutual

theorem parseNode_nodeBody (n : Node) (d : Nat) (rest : List Char) (fuel : Nat)
    (hf : fneed n ≤ fuel) :
    parseNode fuel (nodeBody d n ++ rest) = some (n, rest) := by
  cases fuel with
  | zero =>
    have := fneed_pos n
    omega
  | succ f =>
    cases n with
    | file name p content =>
      rw [parseNode.eq_def]
      simp only [nodeBody, List.append_assoc, List.cons_append, List.nil_append]
      simp [skipWs, dropLit]
      rw [parseAttrs_attrChars]
      simp [dropLit]
      rw [readUntil_append _ _ _ (lt_not_mem_escText content.data)]
      simp [unesc_escText, dropLit, stringMk_data]
    | directory name p cs =>
      cases cs with
      | nil =>
        rw [parseNode.eq_def]
        simp only [nodeBody, List.append_assoc, List.cons_append, List.nil_append]
        simp [skipWs, dropLit]
        rw [parseAttrs_attrChars]
        simp [dropLit]
      | cons c cs' =>
        have hgf : gneed (c :: cs') ≤ f := by
          simp only [fneed] at hf
          omega
        rw [parseNode.eq_def]
        simp only [nodeBody, List.append_assoc, List.cons_append, List.nil_append]
        simp [skipWs, dropLit]
        rw [parseAttrs_attrChars]
        simp [dropLit]
        rw [parseNodes_nodesChars (c :: cs') (d + 1) _ f hgf]
        · simp [skipWs_ind, skipWs, dropLit]
        · refine Or.inr ⟨"directory>\n".data ++ rest, ?_⟩
          simp [skipWs_ind, skipWs]

theorem parseNodes_nodesChars (ns : List Node) (d : Nat) (rest : List Char) (fuel : Nat)
    (hf : gneed ns ≤ fuel)
    (hs : skipWs rest = [] ∨ ∃ r, skipWs rest = '<' :: '/' :: r) :
    parseNodes fuel (nodesChars d ns ++ rest) = some (ns, skipWs rest) := by
  cases fuel with
  | zero =>
    have := gneed_pos ns
    omega
  | succ f =>
    cases ns with
    | nil =>
      rw [parseNodes.eq_def]
      simp only [nodesChars, List.nil_append]
      rcases hs with h | ⟨r, h⟩
      · simp [h]
      · simp [h, startsWithCL]
    | cons n ns' =>
      have h1 : fneed n ≤ f := by
        simp only [gneed] at hf
        omega
      have h2 : gneed ns' ≤ f := by
        simp only [gneed] at hf
        omega
      rw [parseNodes.eq_def]
      simp only [nodesChars, List.append_assoc]
      rw [skipWs_ind, skipWs_nodeBody]
      rw [if_neg (nodeBody_append_ne_nil d n _)]
      rw [startsWithCL_nodeBody]
      simp only [Bool.false_eq_true, if_false]
      rw [parseNode_nodeBody n d _ f h1]
      simp [parseNodes_nodesChars ns' d rest f h2 hs]

end

theorem data_stringMk (l : List Char) : (String.mk l).data = l := rfl

mutual

theorem fneed_le_length (n : Node) (d : Nat) :
    fneed n ≤ (nodeBody d n).length := by
  cases n with
  | file name p content => simp [fneed, nodeBody]
  | directory name p cs =>
    cases cs with
    | nil => simp [fneed, gneed, nodeBody]
    | cons c cs' =>
      have h := gneed_le_length (c :: cs') (d + 1) (by omega)
      simp only [fneed, nodeBody, List.length_append]
      simp at h ⊢
      omega

theorem gneed_le_length (ns : List Node) (d : Nat) (hd : 1 ≤ d) :
    gneed ns ≤ (nodesChars d ns).length + 1 := by
  cases ns with
  | nil => simp [gneed, nodesChars]
  | cons n ns' =>
    have h1 := fneed_le_length n d
    have h2 := gneed_le_length ns' d hd
    simp only [gneed, nodesChars, List.length_append, ind, List.length_replicate]
    omega

end

theorem parseXmlDoc_buildXmlTree (files : List Node) :
    parseXmlDoc (buildXmlTree files) = some files := by
  cases files with
  | nil => rfl
  | cons n ns' =>
    show parseXmlDoc (String.mk (xmlDocChars (n :: ns'))) = some (n :: ns')
    rw [parseXmlDoc.eq_def, data_stringMk]
    simp [xmlDocChars, dropLit]
    rw [parseNodes_nodesChars (n :: ns') 1]
    · simp [skipWs, dropLit]
    · have h := gneed_le_length (n :: ns') 1 (by omega)
      simp [List.length_append] at h ⊢
      omega
    · refine Or.inr ⟨"repository>".data, ?_⟩
      simp [skipWs]

/-- C1: parsing the structured-markup serializer's output reconstructs the
input tree exactly — same directory nesting, same names, same paths, same
file content — for every tree of directory/file nodes (in particular for
any tree of text files the walker produces), the special characters
`< > & " '` and control characters in content being preserved by the
markup text-escaping. -/
theorem claim1_xml_round_trip (files : List Node) :
    parseXmlDoc (buildXmlTree files) = some files :=
  parseXmlDoc_buildXmlTree files

/-- C2: both serializer variants are total pure functions from any tree of
directory/file nodes — with arbitrary characters in names, paths and
contents — to a string. -/
theorem claim2_serializers_total (files : List Node) :
    ∃ xml txt : String, buildXmlTree files = xml ∧ buildTxtOutput files [] "" = txt :=
  ⟨_, _, rfl, rfl⟩

theorem strAppend_slash_ne_empty (a b : String) : a ++ "/" ++ b ≠ "" := by
  intro h
  have := congrArg String.data h
  simp [String.data_append] at this

theorem strLength_pos (s : String) (h : s ≠ "") : 0 < s.length := by
  cases s with
  | mk data =>
    cases data with
    | nil => simp at h
    | cons c cs => simp [String.length]

theorem joinPath_empty_right (a : String) : joinPath a "" = a := by
  by_cases h : a = "" <;> simp [joinPath, h]

theorem joinPath_assoc (a b c : String) :
    joinPath (joinPath a b) c = joinPath a (joinPath b c) := by
  by_cases ha : a = ""
  · simp [joinPath, ha]
  by_cases hb : b = ""
  · simp [joinPath, ha, hb]
  by_cases hc : c = ""
  · have hab : ¬(a ++ ("/" ++ b) = "") := by
      rw [← String.append_assoc]
      exact strAppend_slash_ne_empty a b
    have hab0 : ¬(a ++ "/" ++ b = "") := strAppend_slash_ne_empty a b
    simp [joinPath, ha, hb, hc, hab, hab0]
  · have hab : ¬(a ++ ("/" ++ b) = "") := by
      rw [← String.append_assoc]
      exact strAppend_slash_ne_empty a b
    have hbc : ¬(b ++ ("/" ++ c) = "") := by
      rw [← String.append_assoc]
      exact strAppend_slash_ne_empty b c
    simp [joinPath, ha, hb, hc, hab, hbc, String.append_assoc]

theorem joinPath_ne_self (a q : String) (ha : a ≠ "") : joinPath a q ≠ q := by
  by_cases hq : q = ""
  · subst hq
    simpa [joinPath_empty_right] using ha
  · simp only [joinPath, if_neg ha, if_neg hq]
    intro h
    have hl := congrArg String.length h
    have hp := strLength_pos a ha
    have hs : ("/" : String).length = 1 := rfl
    simp only [String.length_append] at hl
    omega

mutual

/-- The stored path of every node in the subtree is the join of its parent
chain onto `base`. -/
def nodePathsFrom (base : String) : Node → Bool
  | Node.directory name p cs => (p = joinPath base name) && nodesPathsFrom p cs
  | Node.file name p _ => p = joinPath base name

/-- `nodePathsFrom` over a forest. -/
def nodesPathsFrom (base : String) : List Node → Bool
  | [] => true
  | n :: ns => nodePathsFrom base n && nodesPathsFrom base ns

end

theorem nodesPathsFrom_append (base : String) (a b : List Node) :
    nodesPathsFrom base (a ++ b) = (nodesPathsFrom base a && nodesPathsFrom base b) := by
  induction a with
  | nil => simp [nodesPathsFrom]
  | cons n ns ih => simp [nodesPathsFrom, ih, Bool.and_assoc]

theorem walkEntries_pathsFrom (es : List (String × Option FS)) (dirRel : String)
    (excludes : List String) (fileSizeLimit : Nat) (files : List Node)
    (hf : nodesPathsFrom dirRel files = true) :
    nodesPathsFrom dirRel (walkEntries es dirRel excludes fileSizeLimit files) = true := by
  induction es, dirRel, excludes, fileSizeLimit, files using walkEntries.induct with
  | case1 => simpa [walkEntries] using hf
  | case2 name stat rest dirRel ex lim files relPath hex ih =>
    rw [walkEntries.eq_def]
    simpa [hex] using ih hf
  | case3 name rest dirRel ex lim files relPath hex ih =>
    simpa [walkEntries, hex] using ih hf
  | case4 name rest dirRel ex lim files relPath hex l ih1 ih1' ih =>
    have h1 : nodesPathsFrom (joinPath dirRel name)
        (walkEntries l (joinPath dirRel name) ex lim []) = true :=
      ih1 (by simp [nodesPathsFrom])
    simp only [walkEntries, hex, if_neg, Bool.not_eq_true]
    exact ih (by simp [nodesPathsFrom_append, hf, nodesPathsFrom, nodePathsFrom, h1])
  | case5 name rest dirRel ex lim files relPath hex ih =>
    simp only [walkEntries, hex, if_neg, Bool.not_eq_true]
    exact ih (by simp [nodesPathsFrom_append, hf, nodesPathsFrom, nodePathsFrom])
  | case6 name rest dirRel ex lim files relPath hex size isBin content hsize ih =>
    rw [walkEntries.eq_def]
    simpa [hex, hsize] using ih hf
  | case7 name rest dirRel ex lim files relPath hex size content hsize ih =>
    simpa [walkEntries, hex, hsize] using ih hf
  | case8 name rest dirRel ex lim files relPath hex size content hsize ih =>
    simpa [walkEntries, hex, hsize] using ih hf
  | case9 name rest dirRel ex lim files relPath hex size hsize ih =>
    simpa [walkEntries, hex, hsize] using ih hf
  | case10 name rest dirRel ex lim files relPath hex size hsize c ih =>
    simp only [walkEntries, hex, if_neg, Bool.not_eq_true, hsize]
    exact ih (by simp [nodesPathsFrom_append, hf, nodesPathsFrom, nodePathsFrom])

theorem walkDir_pathsFrom (dir : FS) (dirRel : String) (excludes : List String)
    (fileSizeLimit : Nat) :
    nodesPathsFrom dirRel (walkDir dir dirRel excludes fileSizeLimit []) = true := by
  cases dir with
  | dirOk es => exact walkEntries_pathsFrom es dirRel excludes fileSizeLimit [] rfl
  | dirFail => rfl
  | file size isBin content => rfl

/-- For every file in the forest, in depth-first pre-order: the path the
delimited-text serializer prints for it (names joined from the walk
root), the stored path (what the structured-markup serializer prints as
the `path` attribute), and the content. -/
def filePathRecords : List Node → String → List (String × String × String)
  | [], _ => []
  | Node.directory name _ cs :: rest, parentPath =>
    filePathRecords cs (joinPath parentPath name) ++ filePathRecords rest parentPath
  | Node.file name p content :: rest, parentPath =>
    (joinPath parentPath name, p, content) :: filePathRecords rest parentPath

theorem txtPush_records (ns : List Node) (output : List String) (parentPath : String) :
    txtPush ns output parentPath = output ++ (filePathRecords ns parentPath).flatMap
      (fun r => ["--- FILE: " ++ r.1 ++ " ---\n", r.2.2 ++ "\n"]) := by
  induction ns, output, parentPath using txtPush.induct with
  | case1 output parentPath => simp [txtPush, filePathRecords]
  | case2 rest output parentPath name p cs ih1 ih2 =>
    rw [ih1] at ih2
    simp only [txtPush]
    rw [ih1, ih2]
    simp [filePathRecords, List.flatMap_append]
  | case3 rest output parentPath name p content ih =>
    simp [txtPush, filePathRecords, ih]

theorem filePathRecords_paths (ns : List Node) (parentPath rootRel : String)
    (hn : nodesPathsFrom (joinPath rootRel parentPath) ns = true) :
    ∀ r ∈ filePathRecords ns parentPath, r.2.1 = joinPath rootRel r.1 := by
  induction ns, parentPath using filePathRecords.induct with
  | case1 parentPath => simp [filePathRecords]
  | case2 name p cs rest parentPath ih1 ih2 =>
    simp only [nodesPathsFrom, nodePathsFrom, Bool.and_eq_true, decide_eq_true_eq] at hn
    obtain ⟨⟨hp, hcs⟩, hrest⟩ := hn
    intro r hr
    simp only [filePathRecords, List.mem_append] at hr
    rcases hr with hr | hr
    · refine ih1 ?_ r hr
      rw [← joinPath_assoc, ← hp]
      exact hcs
    · exact ih2 hrest r hr
  | case3 name p content rest parentPath ih =>
    simp only [nodesPathsFrom, nodePathsFrom, Bool.and_eq_true, decide_eq_true_eq] at hn
    obtain ⟨hp, hrest⟩ := hn
    intro r hr
    simp only [filePathRecords, List.mem_cons] at hr
    rcases hr with rfl | hr
    · simpa [joinPath_assoc] using hp
    · exact ih hrest r hr

/-- C10: the two output formats use different paths for a file.  The
delimited-text output prints, for every file, the path rebuilt by joining
ancestor names from the walk root (first conjunct, which exhibits
`buildTxtOutput` as printing `r.1` of each record); the structured-markup
serializer prints the stored relative path `p` as the `path` attribute
(second conjunct); and on every tree the walker builds from root
`rootRel` (the walk root's path relative to the working directory), the
stored path is `joinPath rootRel` of the text path, so the two differ
whenever the walk root is not the working directory itself
(`rootRel ≠ ""`). -/
theorem claim10_path_discrepancy :
    (∀ (ns : List Node) (output : List String) (parentPath : String),
      buildTxtOutput ns output parentPath =
        String.join (output ++ (filePathRecords ns parentPath).flatMap
          fun r => ["--- FILE: " ++ r.1 ++ " ---\n", r.2.2 ++ "\n"])) ∧
    (∀ (d : Nat) (name p content : String),
      nodeBody d (Node.file name p content) =
        "<file".data ++ (" name=\"".data ++ escAttr name.data ++ ['"'] ++
          " path=\"".data ++ escAttr p.data ++ ['"']) ++ ">".data ++
          escText content.data ++ "</file>\n".data) ∧
    (∀ (dir : FS) (rootRel : String) (excludes : List String) (fileSizeLimit : Nat)
        (r : String × String × String),
      r ∈ filePathRecords (walkDir dir rootRel excludes fileSizeLimit []) "" →
        r.2.1 = joinPath rootRel r.1 ∧ (rootRel ≠ "" → r.2.1 ≠ r.1)) := by
  refine ⟨?_, ?_, ?_⟩
  · intro ns output parentPath
    rw [buildTxtOutput, txtPush_records]
  · intro d name p content
    simp [nodeBody, attrChars]
  · intro dir rootRel excludes fileSizeLimit r hr
    have hpaths : nodesPathsFrom (joinPath rootRel "") (walkDir dir rootRel excludes
        fileSizeLimit []) = true := by
      rw [joinPath_empty_right]
      exact walkDir_pathsFrom dir rootRel excludes fileSizeLimit
    have h1 := filePathRecords_paths _ "" rootRel hpaths r hr
    exact ⟨h1, fun hroot => h1 ▸ joinPath_ne_self rootRel r.1 hroot⟩

/-- C10 witness: walking a one-file directory from root `temp_repo`
(relative to the working directory) stores path `temp_repo/a.txt` while
the delimited-text header prints `a.txt`; the two differ. -/
theorem claim10_path_discrepancy_witness :
    ("a.txt", "temp_repo/a.txt", "hi") ∈ filePathRecords
        (walkDir (FS.dirOk [("a.txt", some (FS.file 5 (some false) (some "hi")))])
          "temp_repo" [] 10 []) "" ∧
    "temp_repo/a.txt" = joinPath "temp_repo" "a.txt" ∧
    ("temp_repo" : String) ≠ "" ∧ ("temp_repo/a.txt" : String) ≠ "a.txt" := by
  have hm : ("a.txt", "temp_repo/a.txt", "hi") ∈ filePathRecords
      (walkDir (FS.dirOk [("a.txt", some (FS.file 5 (some false) (some "hi")))])
        "temp_repo" [] 10 []) "" := by
    simp [walkDir, walkEntries, excludedBy, joinPath, filePathRecords]
  have h := claim10_path_discrepancy.2.2 _ "temp_repo" [] 10 _ hm
  exact ⟨hm, h.1, by decide, h.2 (by decide)⟩

end RepoToXML
